import Mathlib

/-!
Verification of the takopi-acp-engine streaming translator core
(src/takopi_acp_engine/runner.py) against its design specification.

The embedding mirrors the Python source shallowly:
- JSON values decoded by the event decoder become the inductive `JVal`;
  Python dict lookups (`d.get(k)`) become `dget`, returning `Option JVal`.
- The mutable `AcpStreamState` dataclass becomes an immutable structure;
  `translate` returns the updated state together with the emitted events.
- The byte-stream frame reader `iter_json_lines` (built on
  anyio BufferedByteReceiveStream) is embedded over `List Nat` byte
  streams.  Following the anyio source, `receive_until` returns the bytes
  BEFORE the delimiter (the delimiter is consumed but not returned), and
  raises IncompleteRead at end of stream and DelimiterNotFound once
  max_bytes bytes are buffered without the delimiter.  Chunks are
  modelled as arriving one byte at a time.
-/

namespace Acp

/-- JSON-like values as produced by json.loads. -/
inductive JVal where
  | str (s : String)
  | num (n : Int)
  | bool (b : Bool)
  | null
  | arr (xs : List JVal)
  | obj (kvs : List (String × JVal))

/-- Python dict lookup d.get(k): first binding of the key wins. -/
def dget : List (String × JVal) → String → Option JVal
  | [], _ => none
  | (k, v) :: rest, key => if k = key then some v else dget rest key

/-- ResumeToken from takopi.model: engine tag plus opaque value. -/
structure ResumeTok where
  engine : String
  value : String
deriving DecidableEq, Repr

/-- The normalized output events (StartedEvent, ActionEvent, CompletedEvent).
ActionEvent detail entries and Completed error values are raw JSON values;
a `none` entry models a Python None stored in the detail dict. -/
inductive NEvent where
  | started (engine : String) (resume : ResumeTok) (title : String)
  | action (engine : String) (id : String) (kind : String) (title : String)
      (detail : List (String × Option JVal)) (phase : String) (ok : Bool)
      (message : Option String) (level : String)
  | completed (engine : String) (ok : Bool) (answer : String)
      (resume : Option ResumeTok) (error : Option JVal)

/-- AcpStreamState from runner.py: per-run mutable accumulator. -/
structure AcpStreamState where
  session_id : Option String := none
  last_text : String := ""
  emitted_started : Bool := false
  action_seq : Nat := 0
deriving DecidableEq, Repr

/-- The fresh state produced by new_state. -/
def initState : AcpStreamState := {}

/-- ENGINE constant from runner.py. -/
def ENGINE : String := "droid"

/-- Python str.startswith, via character lists (semantically the same as
String.startsWith but reducible by the kernel). -/
def pyStartsWith (s p : String) : Bool := p.toList.isPrefixOf s.toList

/-- Python truthiness of the optional session_id string
(None and the empty string are falsy). -/
def truthySid : Option String → Bool
  | none => false
  | some s => s != ""

/-- AcpRunner._resume_from_state. -/
def resumeFromState (st : AcpStreamState) (resume : Option ResumeTok) :
    Option ResumeTok :=
  if truthySid st.session_id then some ⟨ENGINE, st.session_id.getD ""⟩
  else resume

/-- AcpRunner._parts_to_text: concatenate the non-empty text/plain string
contents of the dict-shaped parts. -/
def partsToText : List JVal → String
  | [] => ""
  | p :: rest =>
    (match p with
      | .obj kvs =>
        match dget kvs "content_type", dget kvs "content" with
        | some (.str ct), some (.str c) =>
          if ct = "text/plain" then (if c = "" then "" else c) else ""
        | _, _ => ""
      | _ => "") ++ partsToText rest

/-- AcpRunner._trajectory_action: bump the action counter and build the
single ActionEvent for a trajectory metadata dict. -/
def trajectoryAction (mkvs : List (String × JVal)) (st : AcpStreamState) :
    AcpStreamState × NEvent :=
  let st' := { st with action_seq := st.action_seq + 1 }
  let message := dget mkvs "message"
  let toolInput := dget mkvs "tool_input"
  let toolOutput := dget mkvs "tool_output"
  let tkd : String × String × List (String × Option JVal) :=
    match dget mkvs "tool_name" with
    | some (.str t) =>
      if t = "" then ("trajectory", "note", [("message", message)])
      else (t, "tool",
        [("tool_name", some (JVal.str t)), ("tool_input", toolInput),
         ("tool_output", toolOutput)])
    | _ => ("trajectory", "note", [("message", message)])
  (st',
   NEvent.action ENGINE ("acp.trajectory." ++ toString st'.action_seq)
     tkd.2.1 tkd.1 tkd.2.2 "completed" true
     (match message with | some (.str m) => some m | _ => none) "info")

/-- Error-message extraction shared by run.failed / run.cancelled:
a nested error dict yields its message field, a bare string yields itself. -/
def runErrMsg : Option JVal → Option JVal
  | some (.obj rkvs) =>
    (match dget rkvs "error" with
      | some (.obj ekvs) => dget ekvs "message"
      | some (.str m) => some (JVal.str m)
      | _ => none)
  | _ => none

/-- The session-id update and Started-emission step of _handle_run_event:
both require the nested run value to be a dict. -/
def runStateAndStarted (kvs : List (String × JVal)) (st : AcpStreamState) :
    AcpStreamState × Option NEvent :=
  match dget kvs "run" with
  | some (.obj rkvs) =>
    let st1 :=
      match dget rkvs "session_id" with
      | some (.str sid) =>
        if sid = "" then st else { st with session_id := some sid }
      | _ => st
    if !st1.emitted_started && truthySid st1.session_id then
      ({ st1 with emitted_started := true },
       some (NEvent.started ENGINE ⟨ENGINE, st1.session_id.getD ""⟩ "Droid"))
    else (st1, none)
  | _ => (st, none)

/-- The terminal Completed events appended by _handle_run_event after the
session-id step, built over the updated state st2. -/
def runEventsFor (ty : String) (st2 : AcpStreamState)
    (resume : Option ResumeTok) (run? : Option JVal) : List NEvent :=
  if ty = "run.completed" then
    [NEvent.completed ENGINE true st2.last_text
      (resumeFromState st2 resume) none]
  else if ty = "run.failed" ∨ ty = "run.cancelled" then
    [NEvent.completed ENGINE false st2.last_text
      (resumeFromState st2 resume) (runErrMsg run?)]
  else []

/-- AcpRunner._handle_run_event. -/
def handleRunEvent (ty : String) (kvs : List (String × JVal))
    (st : AcpStreamState) (resume : Option ResumeTok) :
    AcpStreamState × List NEvent :=
  let p := runStateAndStarted kvs st
  let events := runEventsFor ty p.1 resume (dget kvs "run")
  (p.1,
    match p.2 with
    | some se => se :: events
    | none => events)

/-- The message.part branch of AcpRunner.translate. -/
def handleMessagePart (kvs : List (String × JVal)) (st : AcpStreamState) :
    AcpStreamState × List NEvent :=
  match dget kvs "part" with
  | some (.obj pkvs) =>
    let st1 :=
      match dget pkvs "content_type", dget pkvs "content" with
      | some (.str ct), some (.str c) =>
        if ct = "text/plain" then { st with last_text := st.last_text ++ c }
        else st
      | _, _ => st
    (match dget pkvs "metadata" with
      | some (.obj mkvs) =>
        (match dget mkvs "kind" with
          | some (.str k) =>
            if k = "trajectory" then
              let q := trajectoryAction mkvs st1
              (q.1, [q.2])
            else (st1, [])
          | _ => (st1, []))
      | _ => (st1, []))
  | _ => (st, [])

/-- The message.created / message.completed branch of AcpRunner.translate. -/
def handleMessageDone (kvs : List (String × JVal)) (st : AcpStreamState) :
    AcpStreamState × List NEvent :=
  match dget kvs "message" with
  | some (.obj mkvs) =>
    (match dget mkvs "role" with
      | some (.str role) =>
        if pyStartsWith role "agent" then
          match dget mkvs "parts" with
          | some (.arr parts) =>
            let text := partsToText parts
            if text = "" then (st, []) else ({ st with last_text := text }, [])
          | _ => (st, [])
        else (st, [])
      | _ => (st, []))
  | _ => (st, [])

/-- The error branch of AcpRunner.translate. -/
def handleError (kvs : List (String × JVal)) (st : AcpStreamState)
    (resume : Option ResumeTok) : AcpStreamState × List NEvent :=
  let msg : Option JVal :=
    match dget kvs "error" with
    | some (.obj ekvs) => dget ekvs "message"
    | some (.str m) => some (JVal.str m)
    | _ => none
  (st, [NEvent.completed ENGINE false st.last_text
    (resumeFromState st resume) msg])

/-- AcpRunner.translate: map one decoded value to the updated state and the
ordered list of emitted normalized events. -/
def translate (data : JVal) (st : AcpStreamState) (resume : Option ResumeTok) :
    AcpStreamState × List NEvent :=
  match data with
  | .obj kvs =>
    (match dget kvs "type" with
      | some (.str ty) =>
        if pyStartsWith ty "run." then handleRunEvent ty kvs st resume
        else if ty = "message.part" then handleMessagePart kvs st
        else if ty = "message.created" ∨ ty = "message.completed" then
          handleMessageDone kvs st
        else if ty = "error" then handleError kvs st resume
        else (st, [])
      | _ => (st, []))
  | _ => (st, [])

/-- Run translate over a list of decoded values, keeping each call's
output list separate. -/
def processCalls (resume : Option ResumeTok) :
    List JVal → AcpStreamState → AcpStreamState × List (List NEvent)
  | [], st => (st, [])
  | e :: tl, st =>
    let p := translate e st resume
    let q := processCalls resume tl p.1
    (q.1, p.2 :: q.2)

/-- Run translate over a list of decoded values, concatenating the outputs
in order (the combined output stream seen by the host). -/
def processAll (resume : Option ResumeTok) (evts : List JVal)
    (st : AcpStreamState) : AcpStreamState × List NEvent :=
  let q := processCalls resume evts st
  (q.1, q.2.flatten)

/-! Frame reader (iter_json_lines) over byte streams.  Bytes are Nat values;
10 is the newline delimiter, 13 carriage return.  The three anyio outcomes
are the constructors of StreamErr; fuelOut marks exhaustion of the fuel
counter of the embedding and never occurs when the fuel exceeds the
length of the stream (iterGo_no_fuelOut below). -/

/-- Errors of the byte-stream reader.  incompleteRead and delimiterNotFound
are the anyio exceptions; fuelOut is an artifact of the fuel encoding. -/
inductive StreamErr where
  | incompleteRead
  | delimiterNotFound
  | fuelOut
deriving DecidableEq, Repr

/-- The line cap 1024 * 1024 passed to every receive_until call. -/
def MAX_LINE : Nat := 1024 * 1024

/-- Index of the first newline byte, if any. -/
def firstNlIdx : List Nat → Option Nat
  | [] => none
  | b :: rest => if b = 10 then some 0 else (firstNlIdx rest).map (· + 1)

/-- BufferedByteReceiveStream.receive_until(b"\n", maxBytes) with chunks
arriving one byte at a time: return the bytes before the first newline and
the remaining stream (the newline is consumed but not returned); raise
IncompleteRead if the stream ends first, DelimiterNotFound once maxBytes
bytes are buffered without a newline. -/
def receiveUntilNl (maxBytes : Nat) (s : List Nat) :
    Except StreamErr (List Nat × List Nat) :=
  match firstNlIdx s with
  | some i =>
    if i < maxBytes then .ok (s.take i, s.drop (i + 1))
    else .error .delimiterNotFound
  | none =>
    if maxBytes ≤ s.length then .error .delimiterNotFound
    else .error .incompleteRead

/-- BufferedByteReceiveStream.receive_exactly(n): for positive n, take
exactly n bytes or raise IncompleteRead; for n ≤ 0 the Python slice
buffer[:n] of the empty buffer returns no bytes and consumes nothing. -/
def receiveExactly (n : Int) (s : List Nat) :
    Except StreamErr (List Nat × List Nat) :=
  if n ≤ 0 then .ok ([], s)
  else if n ≤ (s.length : Int) then .ok (s.take n.toNat, s.drop n.toNat)
  else .error .incompleteRead

/-- Python bytes whitespace (as stripped by bytes.strip()). -/
def isPySpace (b : Nat) : Bool :=
  b = 32 || b = 9 || b = 10 || b = 13 || b = 11 || b = 12

/-- bytes.strip(): drop whitespace from both ends. -/
def bstrip (l : List Nat) : List Nat :=
  ((l.dropWhile isPySpace).reverse.dropWhile isPySpace).reverse

/-- bytes.lower(): map ASCII uppercase to lowercase. -/
def blower (l : List Nat) : List Nat :=
  l.map fun b => if 65 ≤ b ∧ b ≤ 90 then b + 32 else b

/-- ASCII bytes of a string literal. -/
def strBytes (s : String) : List Nat := s.toList.map Char.toNat

/-- line.strip().lower().startswith(b"content-length:"). -/
def startsWithCL (line : List Nat) : Bool :=
  (strBytes "content-length:").isPrefixOf (blower (bstrip line))

/-- line.rstrip(b"\n"): drop trailing newline bytes. -/
def rstripNl (l : List Nat) : List Nat :=
  (l.reverse.dropWhile (fun b => b = 10)).reverse

/-- header.split(b":", 1)[1]: the bytes after the first colon.  In the
source this runs only on headers that contain a colon (they start with
content-length:), so the no-colon result is irrelevant. -/
def splitAfterColon : List Nat → List Nat
  | [] => []
  | b :: rest => if b = 58 then rest else splitAfterColon rest

/-- Decimal digits to a number; none if empty or a non-digit appears. -/
def digitsToNat (l : List Nat) : Option Nat :=
  match l with
  | [] => none
  | _ =>
    l.foldl
      (fun acc b =>
        match acc with
        | none => none
        | some n => if 48 ≤ b ∧ b ≤ 57 then some (n * 10 + (b - 48)) else none)
      (some 0)

/-- Python int() over a stripped byte literal: optional sign then decimal
digits (underscore grouping of CPython literals is not modelled); none
models the ValueError branch. -/
def parseIntB (l : List Nat) : Option Int :=
  match l with
  | 43 :: rest => (digitsToNat rest).map Int.ofNat
  | 45 :: rest => (digitsToNat rest).map fun n => -(n : Int)
  | _ => (digitsToNat l).map Int.ofNat

/-- The content-length extraction loop of iter_json_lines: the first header
that matches content-length: decides, its value parsed with int(). -/
def contentLengthOf (headers : List (List Nat)) : Option Int :=
  match headers.find? startsWithCL with
  | some h => parseIntB (bstrip (splitAfterColon h))
  | none => none

/-- The inner header loop of iter_json_lines: read lines into headers until
a line equals b"\r\n" or b"\n"; receive_until errors propagate (the source
has no try/except around this receive_until). -/
def readHeaderBlock : Nat → List (List Nat) → List Nat →
    Except StreamErr (List (List Nat) × List Nat)
  | 0, _, _ => .error .fuelOut
  | fuel + 1, hs, s =>
    match receiveUntilNl MAX_LINE s with
    | .error e => .error e
    | .ok (hl, rest) =>
      if hl = [13, 10] ∨ hl = [10] then .ok (hs ++ [hl], rest)
      else readHeaderBlock fuel (hs ++ [hl]) rest

/-- The outer loop of iter_json_lines: IncompleteRead of the first
receive_until and of receive_exactly end the sequence silently; every
other error propagates. -/
def iterGo : Nat → List (List Nat) → List Nat →
    Except StreamErr (List (List Nat))
  | 0, _, _ => .error .fuelOut
  | fuel + 1, acc, s =>
    match receiveUntilNl MAX_LINE s with
    | .error .incompleteRead => .ok acc
    | .error e => .error e
    | .ok (line, rest) =>
      if startsWithCL line then
        match readHeaderBlock (rest.length + 1) [line] rest with
        | .error e => .error e
        | .ok (hs, rest2) =>
          match contentLengthOf hs with
          | none => iterGo fuel acc rest2
          | some n =>
            match receiveExactly n rest2 with
            | .error .incompleteRead => .ok acc
            | .error e => .error e
            | .ok (payload, rest3) => iterGo fuel (acc ++ [payload]) rest3
      else iterGo fuel (acc ++ [rstripNl line]) rest

/-- iter_json_lines over a finite byte stream: the sequence of yielded
frames, or the uncaught exception.  Fuel length+1 suffices because every
outer iteration consumes at least one byte (iterGo_no_fuelOut). -/
def iterJsonLines (s : List Nat) : Except StreamErr (List (List Nat)) :=
  iterGo (s.length + 1) [] s

/-- The header framing of stdin_payload when lsp_framing is true:
the literal header Content-Length: count CRLF CRLF followed by the body. -/
def encodeFramed (payload : List Nat) : List Nat :=
  strBytes ("Content-Length: " ++ toString payload.length) ++
    [13, 10, 13, 10] ++ payload

/-! Event decoder (decode_jsonl / invalid_json_events).  Decoded lines are
modelled as strings (utf-8 decoding with errors="replace" is total);
json.loads is an external library call and is passed in as a parameter
returning none exactly when json.JSONDecodeError would be raised. -/

/-- Python str whitespace characters, restricted to ASCII (the unicode
whitespace of str.strip() beyond ASCII is not modelled). -/
def isPySpaceChar (c : Char) : Bool :=
  c = ' ' || c = '\t' || c = '\n' || c = '\r' ||
    c = Char.ofNat 11 || c = Char.ofNat 12

/-- Python str.strip(). -/
def pyStrip (s : String) : String :=
  ⟨((s.toList.dropWhile isPySpaceChar).reverse.dropWhile isPySpaceChar).reverse⟩

/-- Python str.lower(), restricted to ASCII letters. -/
def pyLower (s : String) : String := ⟨s.toList.map Char.toLower⟩

/-- AcpRunner.decode_jsonl on an already utf-8-decoded line; parseJson
stands for json.loads, none meaning a parse failure. -/
def decodeJsonl (parseJson : String → Option JVal) (line : String) :
    Option JVal :=
  let text := pyStrip line
  if text = "" then none
  else
    let text := if pyStartsWith text "data:" then pyStrip (text.drop 5)
      else text
    if text = "[DONE]" ∨ text = "done" then none
    else parseJson text

/-- Diagnostic events surfaced to the host outside the normalized stream. -/
inductive HostDiag where
  | invalidInput (raw : String)
deriving DecidableEq, Repr

/-- Modelled from the spec: the base invalid_json_events implementation of
the host framework (takopi.runner.JsonlSubprocessRunner, not part of this
repository) surfaces one diagnostic invalid-input signal carrying the raw
line. -/
def baseInvalidJsonEvents (raw : String) : List HostDiag :=
  [HostDiag.invalidInput raw]

/-- AcpRunner.invalid_json_events: silent for blank lines and for lines
whose stripped, lowercased form starts with a non-data control prefix;
otherwise defer to the host framework base implementation. -/
def invalidJsonEvents (raw line : String) : List HostDiag :=
  let stripped := pyStrip line
  if stripped = "" then []
  else
    let lowered := pyLower stripped
    if pyStartsWith lowered ":" ∨ pyStartsWith lowered "event:" ∨
        pyStartsWith lowered "id:" ∨ pyStartsWith lowered "retry:" then []
    else baseInvalidJsonEvents raw

/-- Modelled from the spec: the host framework (not part of this
repository) feeds each line through the decode steps and, exactly when
json parsing fails, invokes invalid_json_events with the raw line; the
first component is the decoded event handed to translate, if any. -/
def decodePipeline (parseJson : String → Option JVal) (line : String) :
    Option JVal × List HostDiag :=
  let text := pyStrip line
  if text = "" then (none, [])
  else
    let text2 := if pyStartsWith text "data:" then pyStrip (text.drop 5)
      else text
    if text2 = "[DONE]" ∨ text2 = "done" then (none, [])
    else
      match parseJson text2 with
      | some v => (some v, [])
      | none => (none, invalidJsonEvents line line)


/-! Predicates and canonical event builders used by the claim theorems. -/

/-- True exactly for Started events. -/
def isStartedEvt : NEvent → Bool
  | .started _ _ _ => true
  | _ => false

/-- True exactly for Completed events. -/
def isCompletedEvt : NEvent → Bool
  | .completed _ _ _ _ _ => true
  | _ => false

/-- The answer field of a Completed event. -/
def answerOf : NEvent → Option String
  | .completed _ _ a _ _ => some a
  | _ => none

/-- A run.* event whose nested run object carries the given session id. -/
def isRunWithB (sid : String) (e : JVal) : Bool :=
  match e with
  | .obj kvs =>
    (match dget kvs "type" with
      | some (.str t) => pyStartsWith t "run."
      | _ => false) &&
    (match dget kvs "run" with
      | some (.obj rkvs) =>
        (match dget rkvs "session_id" with
          | some (.str t) => t == sid
          | _ => false)
      | _ => false)
  | _ => false

/-- An event that can produce neither Started nor Completed: its type field
is missing, not a string, or a string that is neither run.* nor error. -/
def nonTerminalB (e : JVal) : Bool :=
  match e with
  | .obj kvs =>
    (match dget kvs "type" with
      | some (.str t) => !pyStartsWith t "run." && !(t == "error")
      | _ => true)
  | _ => true

/-- An input rejected before any dispatch: not a dict, type field missing
or not a string, or an unrecognized type string. -/
def earlyRejectedB (e : JVal) : Bool :=
  match e with
  | .obj kvs =>
    (match dget kvs "type" with
      | some (.str t) =>
        !pyStartsWith t "run." && !(t == "message.part") &&
        !(t == "message.created") && !(t == "message.completed") &&
        !(t == "error")
      | _ => true)
  | _ => true

/-- A run.* event literal with a nested run object holding a session id. -/
def mkRunEvt (ty sid : String) : JVal :=
  .obj [("type", .str ty), ("run", .obj [("session_id", .str sid)])]

/-- A message.part event literal with a plain-text content. -/
def textPartEvt (c : String) : JVal :=
  .obj [("type", .str "message.part"),
    ("part", .obj [("content_type", .str "text/plain"), ("content", .str c)])]

/-! Claim C9: early-rejected inputs leave the state untouched and
produce no events. -/

/-- C9: for every input rejected before dispatch (not a dict, type field
missing or not a string, or an unrecognized type string), translate
returns the empty event list and the state completely unchanged. -/
theorem c9_early_reject_frame (e : JVal) (st : AcpStreamState)
    (r : Option ResumeTok) (h : earlyRejectedB e = true) :
    translate e st r = (st, []) := by
  cases e
  case obj kvs =>
    rw [translate]
    rcases hty : dget kvs "type" with _ | v
    · simp
    · rcases v with t | n | b | _ | xs | okvs
      · rw [earlyRejectedB, hty] at h
        simp only [Bool.and_eq_true, Bool.not_eq_true', beq_eq_false_iff_ne,
          ne_eq] at h
        obtain ⟨⟨⟨⟨h1, h2⟩, h3⟩, h4⟩, h5⟩ := h
        simp [h1, h2, h3, h4, h5]
      all_goals simp
  all_goals rfl

/-- C9 witness at a concrete rejected input. -/
theorem c9_early_reject_frame_witness :
    translate (JVal.obj [("type", JVal.str "run_started")])
      ⟨some "s", "txt", true, 3⟩ none =
      (⟨some "s", "txt", true, 3⟩, []) :=
  c9_early_reject_frame _ _ _ (by decide)

/-! Claim C1: session id storage on run.* events.  The source overwrites
the stored session id unconditionally (last-seen wins), contradicting the
claimed first-seen-wins behavior. -/

/-- C1 counterexample: after run events carrying session ids a then b, the
stored session id is b, not the first-seen a. -/
theorem c1_counterexample_last_wins :
    (processAll none [mkRunEvt "run.created" "a", mkRunEvt "run.created" "b"]
        initState).1.session_id = some "b" ∧ ("b" : String) ≠ "a" :=
  ⟨rfl, by decide⟩

/-- C1 amended: a run.* event whose run object carries a non-empty string
session id stores it unconditionally, overwriting any previous value
(last-seen session id wins). -/
theorem c1_amended_session_overwrite (kvs rkvs : List (String × JVal))
    (ty sid : String) (st : AcpStreamState) (r : Option ResumeTok)
    (h1 : dget kvs "type" = some (.str ty))
    (h2 : pyStartsWith ty "run." = true)
    (h3 : dget kvs "run" = some (.obj rkvs))
    (h4 : dget rkvs "session_id" = some (.str sid))
    (h5 : sid ≠ "") :
    (translate (.obj kvs) st r).1.session_id = some sid := by
  rw [translate, h1]
  simp only [h2, if_true]
  show (runStateAndStarted kvs st).1.session_id = some sid
  rw [runStateAndStarted, h3]
  simp only [h4, if_neg h5]
  split <;> rfl

/-- C1 amended witness at a concrete run event. -/
theorem c1_amended_session_overwrite_witness :
    (translate (mkRunEvt "run.failed" "s2") ⟨some "s1", "", true, 0⟩
        none).1.session_id = some "s2" :=
  c1_amended_session_overwrite _ _ "run.failed" "s2" _ none rfl (by decide)
    rfl rfl (by decide)

/-! Claim C4: the trajectory-to-Action rule.  The source builds the action
id with the literal prefix acp., not the engine id droid claimed by the
spec; everything else matches. -/

/-- The trajectory rule as the specification words it, with the action id
amended to the literal prefix acp. of the source (the specification says
the id starts with the engine id droid). -/
def trajectoryRuleSpec (mkvs : List (String × JVal)) (seq : Nat) : NEvent :=
  let msg : Option String :=
    match dget mkvs "message" with | some (.str m) => some m | _ => none
  match dget mkvs "tool_name" with
  | some (.str t) =>
    if t = "" then
      NEvent.action ENGINE ("acp.trajectory." ++ toString seq) "note"
        "trajectory" [("message", dget mkvs "message")] "completed" true msg
        "info"
    else
      NEvent.action ENGINE ("acp.trajectory." ++ toString seq) "tool" t
        [("tool_name", some (JVal.str t)), ("tool_input", dget mkvs "tool_input"),
         ("tool_output", dget mkvs "tool_output")] "completed" true msg "info"
  | _ =>
      NEvent.action ENGINE ("acp.trajectory." ++ toString seq) "note"
        "trajectory" [("message", dget mkvs "message")] "completed" true msg
        "info"

/-- The trajectory action of the source agrees with the amended rule and
bumps the counter by one. -/
theorem trajectoryAction_eq_spec (mkvs : List (String × JVal))
    (st : AcpStreamState) :
    (trajectoryAction mkvs st).2 = trajectoryRuleSpec mkvs (st.action_seq + 1) ∧
    (trajectoryAction mkvs st).1.action_seq = st.action_seq + 1 := by
  constructor
  · rw [trajectoryAction, trajectoryRuleSpec]
    split
    · split <;> rfl
    · rfl
  · rfl

/-- C4 counterexample: a concrete trajectory part yields an Action with id
acp.trajectory.1, not droid.trajectory.1 as the engine-prefixed claim
requires. -/
theorem c4_counterexample_id_prefix :
    (translate
        (.obj [("type", .str "message.part"),
          ("part", .obj [("content_type", .str "text/plain"),
            ("content", .str ""),
            ("metadata", .obj [("kind", .str "trajectory"),
              ("tool_name", .str "Read")])])])
        initState none).2 =
      [NEvent.action "droid" "acp.trajectory.1" "tool" "Read"
        [("tool_name", some (JVal.str "Read")), ("tool_input", none),
         ("tool_output", none)] "completed" true none "info"] ∧
    ("acp.trajectory.1" : String) ≠ "droid.trajectory.1" :=
  ⟨rfl, by decide⟩

/-- C4 amended: a message.part event whose metadata kind is trajectory
bumps action_sequence and emits exactly the one Action event of the
trajectory rule, with id acp.trajectory.seq (literal acp. prefix instead
of the engine id), kind/title/detail by tool-name presence, phase
completed, ok true, level info, message the string message field if any. -/
theorem c4_amended_trajectory_rule (kvs pkvs mkvs : List (String × JVal))
    (st : AcpStreamState) (r : Option ResumeTok)
    (h1 : dget kvs "type" = some (.str "message.part"))
    (h2 : dget kvs "part" = some (.obj pkvs))
    (h3 : dget pkvs "metadata" = some (.obj mkvs))
    (h4 : dget mkvs "kind" = some (.str "trajectory")) :
    (translate (.obj kvs) st r).2 =
      [trajectoryRuleSpec mkvs (st.action_seq + 1)] ∧
    (translate (.obj kvs) st r).1.action_seq = st.action_seq + 1 := by
  have hred : translate (.obj kvs) st r = handleMessagePart kvs st := by
    rw [translate, h1]
    rfl
  rw [hred, handleMessagePart, h2]
  simp only [h3, h4, if_true]
  split <;> (try split) <;>
    exact ⟨by rw [(trajectoryAction_eq_spec mkvs _).1],
           by rw [(trajectoryAction_eq_spec mkvs _).2]⟩

/-- C4 amended witness at a concrete note-style trajectory part. -/
theorem c4_amended_trajectory_rule_witness :
    (translate
        (.obj [("type", .str "message.part"),
          ("part", .obj [("metadata", .obj [("kind", .str "trajectory"),
            ("message", .str "thinking")])])])
        ⟨none, "", false, 4⟩ none).2 =
      [NEvent.action "droid" "acp.trajectory.5" "note" "trajectory"
        [("message", some (JVal.str "thinking"))] "completed" true
        (some "thinking") "info"] :=
  ((c4_amended_trajectory_rule
      [("type", JVal.str "message.part"),
       ("part", JVal.obj [("metadata", JVal.obj [("kind", JVal.str "trajectory"),
         ("message", JVal.str "thinking")])])]
      [("metadata", JVal.obj [("kind", JVal.str "trajectory"),
        ("message", JVal.str "thinking")])]
      [("kind", JVal.str "trajectory"), ("message", JVal.str "thinking")]
      ⟨none, "", false, 4⟩ none rfl rfl rfl rfl).1).trans rfl

/-! Claim C5: agent message replacement.  The source replaces the
accumulated text only when the concatenated text of the parts is
non-empty; an all-empty concatenation leaves the prior text in place,
contradicting the replacement-even-when-empty claim. -/

/-- C5 counterexample: an agent message.completed whose only text part is
the empty string leaves the prior accumulated text in place instead of
replacing it with the empty concatenation. -/
theorem c5_counterexample_empty_kept :
    (translate
        (.obj [("type", .str "message.completed"),
          ("message", .obj [("role", .str "agent"),
            ("parts", .arr [.obj [("content_type", .str "text/plain"),
              ("content", .str "")]])])])
        ⟨none, "prior", false, 0⟩ none).1.last_text = "prior" ∧
    ("prior" : String) ≠ "" :=
  ⟨rfl, by decide⟩

/-- C5 amended: a message.created or message.completed event from an agent
role with a parts list emits no event and replaces the accumulated text
with the concatenation of the non-empty plain-text parts only when that
concatenation is non-empty; otherwise the prior accumulated text is kept. -/
theorem c5_amended_agent_replace (kvs mkvs : List (String × JVal))
    (parts : List JVal) (ty role : String) (st : AcpStreamState)
    (r : Option ResumeTok)
    (h0 : dget kvs "type" = some (.str ty))
    (h1 : ty = "message.created" ∨ ty = "message.completed")
    (h2 : dget kvs "message" = some (.obj mkvs))
    (h3 : dget mkvs "role" = some (.str role))
    (h4 : pyStartsWith role "agent" = true)
    (h5 : dget mkvs "parts" = some (.arr parts)) :
    (translate (.obj kvs) st r).2 = [] ∧
    (translate (.obj kvs) st r).1.last_text =
      (if partsToText parts = "" then st.last_text else partsToText parts) := by
  have hred : translate (.obj kvs) st r = handleMessageDone kvs st := by
    rw [translate, h0]
    rcases h1 with h1 | h1 <;> subst h1 <;> rfl
  rw [hred, handleMessageDone, h2]
  simp only [h3, h4, if_true, h5]
  split <;> simp_all

/-- C5 amended witness: a concrete agent message with non-empty text
replaces the previous accumulation. -/
theorem c5_amended_agent_replace_witness :
    (translate
        (.obj [("type", .str "message.completed"),
          ("message", .obj [("role", .str "agent/droid"),
            ("parts", .arr [.obj [("content_type", .str "text/plain"),
              ("content", .str "final")]])])])
        ⟨none, "partial", false, 0⟩ none).2 = [] ∧
    (translate
        (.obj [("type", .str "message.completed"),
          ("message", .obj [("role", .str "agent/droid"),
            ("parts", .arr [.obj [("content_type", .str "text/plain"),
              ("content", .str "final")]])])])
        ⟨none, "partial", false, 0⟩ none).1.last_text = "final" := by
  have h := c5_amended_agent_replace
    [("type", JVal.str "message.completed"),
     ("message", JVal.obj [("role", JVal.str "agent/droid"),
       ("parts", JVal.arr [JVal.obj [("content_type", JVal.str "text/plain"),
         ("content", JVal.str "final")]])])]
    [("role", JVal.str "agent/droid"),
     ("parts", JVal.arr [JVal.obj [("content_type", JVal.str "text/plain"),
       ("content", JVal.str "final")]])]
    [JVal.obj [("content_type", JVal.str "text/plain"),
      ("content", JVal.str "final")]]
    "message.completed" "agent/droid" ⟨none, "partial", false, 0⟩ none
    rfl (Or.inr rfl) rfl rfl (by decide) rfl
  exact ⟨h.1, h.2.trans rfl⟩

/-! Claim C7: plain-text accumulation and Completed.answer. -/

/-- Concatenation of a list of strings in order. -/
def concatAll : List String → String
  | [] => ""
  | c :: cs => c ++ concatAll cs

/-- A message.part event whose part is plain text with string content c. -/
def IsTextPart (e : JVal) (c : String) : Prop :=
  ∃ kvs pkvs, e = .obj kvs ∧
    dget kvs "type" = some (.str "message.part") ∧
    dget kvs "part" = some (.obj pkvs) ∧
    dget pkvs "content_type" = some (.str "text/plain") ∧
    dget pkvs "content" = some (.str c)

/-- A plain-text message.part appends its content to the accumulated text. -/
theorem translate_textPart_appends (e : JVal) (c : String)
    (st : AcpStreamState) (r : Option ResumeTok) (h : IsTextPart e c) :
    (translate e st r).1.last_text = st.last_text ++ c := by
  obtain ⟨kvs, pkvs, rfl, h1, h2, h3, h4⟩ := h
  have hred : translate (.obj kvs) st r = handleMessagePart kvs st := by
    rw [translate, h1]
    rfl
  rw [hred, handleMessagePart, h2]
  simp only [h3, h4, if_true]
  split <;> (try split) <;> (try split) <;> rfl

/-- The session-id step never changes the accumulated text or the action
counter. -/
theorem runStateAndStarted_keeps_text (kvs : List (String × JVal))
    (st : AcpStreamState) :
    (runStateAndStarted kvs st).1.last_text = st.last_text ∧
    (runStateAndStarted kvs st).1.action_seq = st.action_seq := by
  simp only [runStateAndStarted]
  repeat' split
  all_goals exact ⟨rfl, rfl⟩

/-- The optional event of the session-id step is a Started event when
present. -/
theorem runStateAndStarted_snd (kvs : List (String × JVal))
    (st : AcpStreamState) :
    (runStateAndStarted kvs st).2 = none ∨
    ∃ se, (runStateAndStarted kvs st).2 = some se ∧ isStartedEvt se = true := by
  simp only [runStateAndStarted]
  repeat' split
  all_goals simp [isStartedEvt]

/-- A Started event is not a Completed event. -/
theorem started_not_completed (ev : NEvent) (h : isStartedEvt ev = true) :
    isCompletedEvt ev = false := by
  cases ev <;> simp_all [isStartedEvt, isCompletedEvt]

/-- Terminal run events carry as answer the text of the state they were
built over, and are never Started events. -/
theorem runEventsFor_shape (ty : String) (st2 : AcpStreamState)
    (r : Option ResumeTok) (run? : Option JVal) (ev : NEvent)
    (hm : ev ∈ runEventsFor ty st2 r run?) :
    answerOf ev = some st2.last_text ∧ isStartedEvt ev = false := by
  rw [runEventsFor] at hm
  split at hm
  · simp only [List.mem_singleton] at hm
    subst hm
    exact ⟨rfl, rfl⟩
  · split at hm
    · simp only [List.mem_singleton] at hm
      subst hm
      exact ⟨rfl, rfl⟩
    · simp at hm

/-- The message.part branch emits neither Started nor Completed events. -/
theorem handleMessagePart_no_terminal (kvs : List (String × JVal))
    (st : AcpStreamState) (ev : NEvent)
    (hm : ev ∈ (handleMessagePart kvs st).2) :
    isStartedEvt ev = false ∧ isCompletedEvt ev = false := by
  simp only [handleMessagePart] at hm
  repeat' split at hm
  all_goals first
    | exact absurd hm (List.not_mem_nil ev)
    | (simp only [List.mem_singleton] at hm
       subst hm
       exact ⟨rfl, rfl⟩)

/-- The message.created / message.completed branch emits no events. -/
theorem handleMessageDone_no_events (kvs : List (String × JVal))
    (st : AcpStreamState) : (handleMessageDone kvs st).2 = [] := by
  simp only [handleMessageDone]
  repeat' split
  all_goals rfl

/-- handleMessagePart preserves the started flag. -/
theorem handleMessagePart_keeps_flag (kvs : List (String × JVal))
    (st : AcpStreamState) :
    (handleMessagePart kvs st).1.emitted_started = st.emitted_started := by
  simp only [handleMessagePart]
  repeat' split
  all_goals rfl

/-- handleMessageDone preserves the started flag. -/
theorem handleMessageDone_keeps_flag (kvs : List (String × JVal))
    (st : AcpStreamState) :
    (handleMessageDone kvs st).1.emitted_started = st.emitted_started := by
  simp only [handleMessageDone]
  repeat' split
  all_goals rfl

/-- Every Completed event emitted by translate carries as answer the
accumulated text as it stood when the event was processed. -/
theorem translate_completed_answer (e : JVal) (st : AcpStreamState)
    (r : Option ResumeTok) (ev : NEvent) (hm : ev ∈ (translate e st r).2)
    (hc : isCompletedEvt ev = true) : answerOf ev = some st.last_text := by
  rcases e with t | n | b | _ | xs | kvs
  case obj =>
    rcases hty : dget kvs "type" with _ | v
    case none =>
      have hz : (translate (.obj kvs) st r).2 = [] := by
        rw [translate, hty]
      rw [hz] at hm
      exact absurd hm (List.not_mem_nil ev)
    case some =>
      rcases v with ty | n' | b' | _ | xs' | okvs
      case str =>
        by_cases hrn : pyStartsWith ty "run." = true
        · have hred : translate (.obj kvs) st r = handleRunEvent ty kvs st r := by
            rw [translate, hty]
            simp only [hrn, if_true]
          rw [hred] at hm
          have hkeep := (runStateAndStarted_keeps_text kvs st).1
          have hsnd := runStateAndStarted_snd kvs st
          rcases hq : runStateAndStarted kvs st with ⟨st2, so⟩
          rw [hq] at hkeep hsnd
          simp only [handleRunEvent, hq] at hm
          rcases so with _ | se
          · simp only at hm
            have h1 := (runEventsFor_shape ty st2 r (dget kvs "run") ev hm).1
            rw [hkeep] at h1
            exact h1
          · simp only [List.mem_cons] at hm
            rcases hm with hm | hm
            · subst hm
              rcases hsnd with hno | ⟨se', hse', hst⟩
              · simp at hno
              · simp only [Option.some.injEq] at hse'
                subst hse'
                rw [started_not_completed ev hst] at hc
                exact absurd hc Bool.false_ne_true
            · have h1 := (runEventsFor_shape ty st2 r (dget kvs "run") ev hm).1
              rw [hkeep] at h1
              exact h1
        · have hred : translate (.obj kvs) st r =
              (if ty = "message.part" then handleMessagePart kvs st
               else if ty = "message.created" ∨ ty = "message.completed" then
                 handleMessageDone kvs st
               else if ty = "error" then handleError kvs st r
               else (st, [])) := by
            rw [translate, hty]
            simp only [hrn, Bool.false_eq_true, if_false]
          rw [hred] at hm
          split at hm
          · have hnc := (handleMessagePart_no_terminal kvs st ev hm).2
            rw [hnc] at hc
            exact absurd hc Bool.false_ne_true
          · split at hm
            · rw [handleMessageDone_no_events] at hm
              exact absurd hm (List.not_mem_nil ev)
            · split at hm
              · rw [handleError] at hm
                simp only [List.mem_singleton] at hm
                subst hm
                rfl
              · exact absurd hm (List.not_mem_nil ev)
      all_goals
        (have hz : (translate (.obj kvs) st r).2 = [] := by
           rw [translate, hty]
         rw [hz] at hm
         exact absurd hm (List.not_mem_nil ev))
  all_goals exact absurd hm (List.not_mem_nil ev)

/-- C7: over any run, processing a sequence of plain-text message.part
events with contents c1..cn appends their concatenation to the accumulated
text (from a fresh state: the accumulation equals the concatenation), and
every Completed event emitted by translate carries as answer the
accumulated text at the moment its event was processed. -/
theorem c7_accumulation_and_answer :
    (∀ (evts : List JVal) (cs : List String) (st : AcpStreamState)
      (r : Option ResumeTok), List.Forall₂ IsTextPart evts cs →
      (processAll r evts st).1.last_text = st.last_text ++ concatAll cs) ∧
    (∀ (e : JVal) (st : AcpStreamState) (r : Option ResumeTok) (ev : NEvent),
      ev ∈ (translate e st r).2 → isCompletedEvt ev = true →
      answerOf ev = some st.last_text) := by
  constructor
  · intro evts cs st r h
    induction h generalizing st with
    | nil => simp [processAll, processCalls, concatAll]
    | cons h1 h2 ih =>
      rename_i e c tle tlc
      show (processCalls r (e :: tle) st).1.last_text = _
      rw [processCalls]
      have hstep := translate_textPart_appends e c st r h1
      have := ih (translate e st r).1
      rw [hstep] at this
      rw [concatAll, ← String.append_assoc]
      exact this
  · exact translate_completed_answer

/-- C7 witness: two concrete text parts accumulate in order, and a concrete
run.completed carries the accumulated answer. -/
theorem c7_accumulation_and_answer_witness :
    (processAll none [textPartEvt "Hello, ", textPartEvt "world"]
        initState).1.last_text = "Hello, world" ∧
    answerOf (NEvent.completed ENGINE true "txt"
        (some ⟨ENGINE, "s1"⟩) none) = some "txt" := by
  constructor
  · have h := c7_accumulation_and_answer.1
      [textPartEvt "Hello, ", textPartEvt "world"] ["Hello, ", "world"]
      initState none ?_
    · exact h.trans rfl
    · refine List.Forall₂.cons ?_ (List.Forall₂.cons ?_ List.Forall₂.nil)
      · exact ⟨_, _, rfl, rfl, rfl, rfl, rfl⟩
      · exact ⟨_, _, rfl, rfl, rfl, rfl, rfl⟩
  · exact c7_accumulation_and_answer.2 (mkRunEvt "run.completed" "s1")
      ⟨some "s1", "txt", true, 0⟩ none _
      (List.mem_singleton_self _) rfl

/-! Claim C6: Started uniqueness and ordering. -/

/-- Reduction of translate on a run.* typed event. -/
theorem translate_run_eq (kvs : List (String × JVal)) (st : AcpStreamState)
    (r : Option ResumeTok) (ty : String)
    (hty : dget kvs "type" = some (.str ty))
    (hrn : pyStartsWith ty "run." = true) :
    translate (.obj kvs) st r = handleRunEvent ty kvs st r := by
  rw [translate, hty]
  simp only [hrn, if_true]

/-- Once the started flag is set, the session-id step keeps it set and
emits nothing. -/
theorem runStateAndStarted_flag_true (kvs : List (String × JVal))
    (st : AcpStreamState) (h : st.emitted_started = true) :
    (runStateAndStarted kvs st).1.emitted_started = true ∧
    (runStateAndStarted kvs st).2 = none := by
  simp only [runStateAndStarted]
  repeat' split
  all_goals simp_all

/-- With the flag unset and a non-empty session id in the run object, the
session-id step sets the flag and returns the Started event for that id. -/
theorem runStateAndStarted_first (kvs rkvs : List (String × JVal))
    (st : AcpStreamState) (sid : String)
    (hrun : dget kvs "run" = some (.obj rkvs))
    (hsid : dget rkvs "session_id" = some (.str sid))
    (hs : sid ≠ "") (hflag : st.emitted_started = false) :
    runStateAndStarted kvs st =
      ({ st with session_id := some sid, emitted_started := true },
       some (NEvent.started ENGINE ⟨ENGINE, sid⟩ "Droid")) := by
  simp only [runStateAndStarted, hrun, hsid, if_neg hs]
  have hcond : (!({ st with session_id := some sid } :
      AcpStreamState).emitted_started &&
      truthySid ({ st with session_id := some sid } :
        AcpStreamState).session_id) = true := by
    simp [hflag, truthySid, bne_iff_ne, hs]
  rw [if_pos hcond]
  rfl

/-- A non-terminal event (type missing, not a string, or neither run.* nor
error) keeps the started flag and emits neither Started nor Completed. -/
theorem translate_nonTerminal (e : JVal) (st : AcpStreamState)
    (r : Option ResumeTok) (h : nonTerminalB e = true) :
    (translate e st r).1.emitted_started = st.emitted_started ∧
    ∀ ev ∈ (translate e st r).2,
      isStartedEvt ev = false ∧ isCompletedEvt ev = false := by
  rcases e with t | n | b | _ | xs | kvs
  case obj =>
    rcases hty : dget kvs "type" with _ | v
    case none =>
      have hz : translate (.obj kvs) st r = (st, []) := by
        rw [translate, hty]
      rw [hz]
      exact ⟨rfl, fun ev hv => absurd hv (List.not_mem_nil ev)⟩
    case some =>
      rcases v with ty | n' | b' | _ | xs' | okvs
      case str =>
        rw [nonTerminalB, hty] at h
        simp only [Bool.and_eq_true, Bool.not_eq_true',
          beq_eq_false_iff_ne, ne_eq] at h
        obtain ⟨h1, h2⟩ := h
        have hred : translate (.obj kvs) st r =
            (if ty = "message.part" then handleMessagePart kvs st
             else if ty = "message.created" ∨ ty = "message.completed" then
               handleMessageDone kvs st
             else if ty = "error" then handleError kvs st r
             else (st, [])) := by
          rw [translate, hty]
          simp only [h1, Bool.false_eq_true, if_false]
        rw [hred]
        split_ifs with hA hB
        · exact ⟨handleMessagePart_keeps_flag kvs st,
            fun ev hv => handleMessagePart_no_terminal kvs st ev hv⟩
        · refine ⟨handleMessageDone_keeps_flag kvs st, ?_⟩
          intro ev hv
          rw [handleMessageDone_no_events] at hv
          exact absurd hv (List.not_mem_nil ev)
        · exact ⟨rfl, fun ev hv => absurd hv (List.not_mem_nil ev)⟩
      all_goals
        (have hz : translate (.obj kvs) st r = (st, []) := by
           rw [translate, hty]
         rw [hz]
         exact ⟨rfl, fun ev hv => absurd hv (List.not_mem_nil ev)⟩)
  all_goals exact ⟨rfl, fun ev hv => absurd hv (List.not_mem_nil ev)⟩

/-- After the started flag is set, no event whatsoever can emit another
Started, and the flag stays set. -/
theorem translate_flag_true (e : JVal) (st : AcpStreamState)
    (r : Option ResumeTok) (h : st.emitted_started = true) :
    (translate e st r).1.emitted_started = true ∧
    ∀ ev ∈ (translate e st r).2, isStartedEvt ev = false := by
  rcases e with t | n | b | _ | xs | kvs
  case obj =>
    rcases hty : dget kvs "type" with _ | v
    case none =>
      have hz : translate (.obj kvs) st r = (st, []) := by
        rw [translate, hty]
      rw [hz]
      exact ⟨h, fun ev hv => absurd hv (List.not_mem_nil ev)⟩
    case some =>
      rcases v with ty | n' | b' | _ | xs' | okvs
      case str =>
        by_cases hrn : pyStartsWith ty "run." = true
        · rw [translate_run_eq kvs st r ty hty hrn]
          obtain ⟨hf, hn⟩ := runStateAndStarted_flag_true kvs st h
          rcases hq : runStateAndStarted kvs st with ⟨st2, so⟩
          rw [hq] at hf hn
          simp only at hf hn
          subst hn
          constructor
          · show (runStateAndStarted kvs st).1.emitted_started = true
            rw [hq]
            exact hf
          · intro ev hv
            have hv2 : ev ∈ runEventsFor ty st2 r (dget kvs "run") := by
              simp only [handleRunEvent, hq] at hv
              exact hv
            exact (runEventsFor_shape ty st2 r (dget kvs "run") ev hv2).2
        · by_cases herr : ty = "error"
          · subst herr
            have hred : translate (.obj kvs) st r = handleError kvs st r := by
              rw [translate, hty]
              rfl
            rw [hred, handleError]
            refine ⟨h, ?_⟩
            intro ev hv
            simp only [List.mem_singleton] at hv
            subst hv
            rfl
          · have hnt : nonTerminalB (.obj kvs) = true := by
              rw [nonTerminalB, hty]
              have hrn2 : pyStartsWith ty "run." = false := by
                revert hrn
                cases pyStartsWith ty "run." <;> simp
              have herr2 : (ty == "error") = false := by
                simp [herr]
              simp [hrn2, herr2]
            obtain ⟨hf, hev⟩ := translate_nonTerminal (.obj kvs) st r hnt
            rw [hf]
            exact ⟨h, fun ev hv => (hev ev hv).1⟩
      all_goals
        (have hz : translate (.obj kvs) st r = (st, []) := by
           rw [translate, hty]
         rw [hz]
         exact ⟨h, fun ev hv => absurd hv (List.not_mem_nil ev)⟩)
  all_goals exact ⟨h, fun ev hv => absurd hv (List.not_mem_nil ev)⟩

/-- Destructor for isRunWithB. -/
theorem isRunWithB_elim (sid : String) (e : JVal)
    (h : isRunWithB sid e = true) :
    ∃ kvs ty rkvs, e = .obj kvs ∧
      dget kvs "type" = some (.str ty) ∧ pyStartsWith ty "run." = true ∧
      dget kvs "run" = some (.obj rkvs) ∧
      dget rkvs "session_id" = some (.str sid) := by
  rcases e with t | n | b | _ | xs | kvs
  case obj =>
    rw [isRunWithB] at h
    rw [Bool.and_eq_true] at h
    obtain ⟨h1, h2⟩ := h
    split at h1
    case _ ty hty =>
      split at h2
      case _ rkvs hrun =>
        split at h2
        case _ t' hsid =>
          rw [beq_iff_eq] at h2
          subst h2
          exact ⟨kvs, ty, rkvs, rfl, hty, h1, hrun, hsid⟩
        all_goals cases h2
      all_goals cases h2
    all_goals cases h1
  all_goals cases h

/-- Once the started flag is set, a whole run of translate calls emits no
further Started event and keeps the flag. -/
theorem processCalls_flag_true (r : Option ResumeTok) (evts : List JVal) :
    ∀ st : AcpStreamState, st.emitted_started = true →
    (processCalls r evts st).1.emitted_started = true ∧
    ∀ ev ∈ (processCalls r evts st).2.flatten, isStartedEvt ev = false := by
  induction evts with
  | nil =>
    intro st h
    exact ⟨h, fun ev hv => absurd hv (List.not_mem_nil ev)⟩
  | cons e tl ih =>
    intro st h
    obtain ⟨hf, hev⟩ := translate_flag_true e st r h
    obtain ⟨hf2, hev2⟩ := ih (translate e st r).1 hf
    simp only [processCalls]
    refine ⟨hf2, ?_⟩
    intro ev hv
    rw [List.flatten_cons, List.mem_append] at hv
    rcases hv with hv | hv
    · exact hev ev hv
    · exact hev2 ev hv

/-- Main induction for C6: from an unstarted state, a sequence made of
run.* events carrying the shared non-empty session id sid and of
non-terminal events, containing at least one such run event, produces
per-call outputs of the form pre ++ (started :: rest) :: post where pre
holds neither Started nor Completed events and rest and post hold no
Started event. -/
theorem processCalls_started_decomp (r : Option ResumeTok) (sid : String)
    (hs : sid ≠ "") (evts : List JVal) :
    ∀ st : AcpStreamState, st.emitted_started = false →
    (∀ e ∈ evts, isRunWithB sid e = true ∨ nonTerminalB e = true) →
    (∃ e ∈ evts, isRunWithB sid e = true) →
    ∃ pre rest post,
      (processCalls r evts st).2 =
        pre ++ (NEvent.started ENGINE ⟨ENGINE, sid⟩ "Droid" :: rest) :: post ∧
      (∀ ev ∈ pre.flatten, isStartedEvt ev = false ∧ isCompletedEvt ev = false) ∧
      (∀ ev ∈ rest, isStartedEvt ev = false) ∧
      (∀ ev ∈ post.flatten, isStartedEvt ev = false) := by
  induction evts with
  | nil =>
    intro st _ _ hex
    obtain ⟨e, he, _⟩ := hex
    exact absurd he (List.not_mem_nil e)
  | cons e tl ih =>
    intro st hflag hall hex
    by_cases hr : isRunWithB sid e = true
    · obtain ⟨kvs, ty, rkvs, rfl, hty, hrn, hrun, hsid⟩ := isRunWithB_elim sid e hr
      have hred := translate_run_eq kvs st r ty hty hrn
      have hfirst := runStateAndStarted_first kvs rkvs st sid hrun hsid hs hflag
      have hout : (translate (.obj kvs) st r).2 =
          NEvent.started ENGINE ⟨ENGINE, sid⟩ "Droid" ::
            runEventsFor ty
              { st with session_id := some sid, emitted_started := true }
              r (dget kvs "run") := by
        rw [hred]
        simp only [handleRunEvent, hfirst]
      have hfl : (translate (.obj kvs) st r).1.emitted_started = true := by
        rw [hred]
        show (runStateAndStarted kvs st).1.emitted_started = true
        rw [hfirst]
      obtain ⟨_, hpost⟩ :=
        processCalls_flag_true r tl (translate (.obj kvs) st r).1 hfl
      refine ⟨[],
        runEventsFor ty
          { st with session_id := some sid, emitted_started := true }
          r (dget kvs "run"),
        (processCalls r tl (translate (.obj kvs) st r).1).2, ?_, ?_, ?_, ?_⟩
      · simp only [processCalls, List.nil_append]
        rw [hout]
      · intro ev hv
        exact absurd hv (List.not_mem_nil ev)
      · intro ev hv
        exact (runEventsFor_shape _ _ _ _ ev hv).2
      · exact hpost
    · have hnt : nonTerminalB e = true := by
        rcases hall e (List.mem_cons_self e tl) with hx | hx
        · exact absurd hx hr
        · exact hx
      obtain ⟨hf, hev⟩ := translate_nonTerminal e st r hnt
      have hflag2 : (translate e st r).1.emitted_started = false := by
        rw [hf, hflag]
      have hex2 : ∃ x ∈ tl, isRunWithB sid x = true := by
        obtain ⟨x, hx1, hx2⟩ := hex
        rcases List.mem_cons.mp hx1 with hx1 | hx1
        · subst hx1
          exact absurd hx2 hr
        · exact ⟨x, hx1, hx2⟩
      have hall2 : ∀ x ∈ tl, isRunWithB sid x = true ∨ nonTerminalB x = true :=
        fun x hx => hall x (List.mem_cons_of_mem e hx)
      obtain ⟨pre, rest, post, hdec, hpre, hrest, hpost⟩ :=
        ih (translate e st r).1 hflag2 hall2 hex2
      refine ⟨(translate e st r).2 :: pre, rest, post, ?_, ?_, hrest, hpost⟩
      · simp only [processCalls]
        rw [hdec]
        rfl
      · intro ev hv
        rw [List.flatten_cons, List.mem_append] at hv
        rcases hv with hv | hv
        · exact hev ev hv
        · exact hpre ev hv

/-- C6 counterexample: against a fresh state, an error event followed by a
run.created event with session id s1 produces a Completed event before the
single Started event, so Started does not precede every Completed. -/
theorem c6_counterexample_error_first :
    (processAll none
        [.obj [("type", .str "error")], mkRunEvt "run.created" "s1"]
        initState).2 =
      [NEvent.completed ENGINE false "" none none,
       NEvent.started ENGINE ⟨ENGINE, "s1"⟩ "Droid"] ∧
    isCompletedEvt (NEvent.completed ENGINE false "" none none) = true ∧
    isStartedEvt (NEvent.started ENGINE ⟨ENGINE, "s1"⟩ "Droid") = true :=
  ⟨rfl, rfl, rfl⟩

/-- C6 amended: against a fresh state, for a sequence of events made of
run.* events all carrying one shared non-empty session id and of
non-terminal events (no error events), with at least one such run event,
the combined output contains exactly one Started event, that Started is
the first event of the call that produces it, and it precedes every
Completed event of the combined output. -/
theorem c6_amended_started_once (r : Option ResumeTok) (sid : String)
    (evts : List JVal) (hs : sid ≠ "")
    (hall : ∀ e ∈ evts, isRunWithB sid e = true ∨ nonTerminalB e = true)
    (hex : ∃ e ∈ evts, isRunWithB sid e = true) :
    ∃ pre rest post,
      (processCalls r evts initState).2 =
        pre ++ (NEvent.started ENGINE ⟨ENGINE, sid⟩ "Droid" :: rest) :: post ∧
      (∀ ev ∈ pre.flatten, isStartedEvt ev = false ∧ isCompletedEvt ev = false) ∧
      (∀ ev ∈ rest, isStartedEvt ev = false) ∧
      (∀ ev ∈ post.flatten, isStartedEvt ev = false) ∧
      (processAll r evts initState).2 =
        pre.flatten ++ NEvent.started ENGINE ⟨ENGINE, sid⟩ "Droid" ::
          (rest ++ post.flatten) := by
  obtain ⟨pre, rest, post, hdec, hpre, hrest, hpost⟩ :=
    processCalls_started_decomp r sid hs evts initState rfl hall hex
  refine ⟨pre, rest, post, hdec, hpre, hrest, hpost, ?_⟩
  show (processCalls r evts initState).2.flatten = _
  rw [hdec, List.flatten_append, List.flatten_cons]
  simp [List.append_assoc]

/-- C6 amended witness: a concrete run.created then run.completed pair. -/
theorem c6_amended_started_once_witness :
    ∃ pre rest post,
      (processCalls none [mkRunEvt "run.created" "s1",
        mkRunEvt "run.completed" "s1"] initState).2 =
        pre ++ (NEvent.started ENGINE ⟨ENGINE, "s1"⟩ "Droid" :: rest) :: post ∧
      (∀ ev ∈ pre.flatten, isStartedEvt ev = false ∧ isCompletedEvt ev = false) ∧
      (∀ ev ∈ rest, isStartedEvt ev = false) ∧
      (∀ ev ∈ post.flatten, isStartedEvt ev = false) ∧
      (processAll none [mkRunEvt "run.created" "s1",
        mkRunEvt "run.completed" "s1"] initState).2 =
        pre.flatten ++ NEvent.started ENGINE ⟨ENGINE, "s1"⟩ "Droid" ::
          (rest ++ post.flatten) := by
  apply c6_amended_started_once none "s1"
    [mkRunEvt "run.created" "s1", mkRunEvt "run.completed" "s1"]
  · decide
  · intro e he
    rcases List.mem_cons.mp he with he | he
    · subst he
      left
      decide
    · rcases List.mem_cons.mp he with he | he
      · subst he
        left
        decide
      · exact absurd he (List.not_mem_nil e)
  · exact ⟨mkRunEvt "run.created" "s1",
      List.mem_cons_self _ _, by decide⟩

/-! Claim C8: decoder behavior on lines that fail to parse as JSON. -/

/-- The stripped line starts, case-insensitively, with one of the
non-data control prefixes. -/
def ctrlPrefixB (stripped : String) : Bool :=
  let lowered := pyLower stripped
  pyStartsWith lowered ":" || pyStartsWith lowered "event:" ||
    pyStartsWith lowered "id:" || pyStartsWith lowered "retry:"

/-- C8: when a line reaches json parsing and parsing fails, the decoder
yields no event, and surfaces no diagnostic when the trimmed line starts
with a control prefix (case-insensitively), otherwise exactly one
invalid-input diagnostic carrying the raw line. -/
theorem c8_invalid_line_diagnostic (parseJson : String → Option JVal)
    (line t2 : String) (h1 : pyStrip line ≠ "")
    (ht2 : (if pyStartsWith (pyStrip line) "data:" then
        pyStrip ((pyStrip line).drop 5) else pyStrip line) = t2)
    (h2 : t2 ≠ "[DONE]") (h3 : t2 ≠ "done") (h4 : parseJson t2 = none) :
    decodePipeline parseJson line =
      (none, if ctrlPrefixB (pyStrip line) = true then []
             else [HostDiag.invalidInput line]) := by
  simp only [decodePipeline]
  rw [if_neg h1, ht2]
  rw [if_neg (not_or.mpr ⟨h2, h3⟩), h4]
  show ((none : Option JVal), invalidJsonEvents line line) = _
  simp only [invalidJsonEvents]
  rw [if_neg h1]
  by_cases hctrl : ctrlPrefixB (pyStrip line) = true
  · have hP : pyStartsWith (pyLower (pyStrip line)) ":" = true ∨
        pyStartsWith (pyLower (pyStrip line)) "event:" = true ∨
        pyStartsWith (pyLower (pyStrip line)) "id:" = true ∨
        pyStartsWith (pyLower (pyStrip line)) "retry:" = true := by
      rw [ctrlPrefixB] at hctrl
      simp only [Bool.or_eq_true] at hctrl
      tauto
    rw [if_pos hP, if_pos hctrl]
  · have hP : ¬(pyStartsWith (pyLower (pyStrip line)) ":" = true ∨
        pyStartsWith (pyLower (pyStrip line)) "event:" = true ∨
        pyStartsWith (pyLower (pyStrip line)) "id:" = true ∨
        pyStartsWith (pyLower (pyStrip line)) "retry:" = true) := by
      rw [ctrlPrefixB] at hctrl
      simp only [Bool.or_eq_true] at hctrl
      tauto
    rw [if_neg hP, if_neg hctrl]
    rfl

/-- C8 witness: scenario C (control heartbeat, silent) and scenario D
(non-control garbage, one diagnostic). -/
theorem c8_invalid_line_diagnostic_witness :
    decodePipeline (fun _ => none) ": heartbeat" = (none, []) ∧
    decodePipeline (fun _ => none) "not json at all" =
      (none, [HostDiag.invalidInput "not json at all"]) := by
  constructor
  · have h := c8_invalid_line_diagnostic (fun _ => none) ": heartbeat"
      ": heartbeat" (by decide) (by decide) (by decide) (by decide) rfl
    exact h.trans (by rfl)
  · have h := c8_invalid_line_diagnostic (fun _ => none) "not json at all"
      "not json at all" (by decide) (by decide) (by decide) (by decide) rfl
    exact h.trans (by rfl)

/-! Frame-reader lemmas for claims C2, C3 and C10. -/

/-- takeWhile never yields more elements than its input. -/
theorem takeWhile_len_le {α : Type} (p : α → Bool) (l : List α) :
    (l.takeWhile p).length ≤ l.length := by
  induction l with
  | nil => exact Nat.le_refl 0
  | cons b rest ih =>
    rw [List.takeWhile_cons]
    by_cases hb : p b = true
    · rw [if_pos hb]
      simp only [List.length_cons]
      omega
    · rw [if_neg hb]
      exact Nat.zero_le _

/-- Every newline-free segment of the stream, starting anywhere, is
shorter than the line cap. -/
def linesFit (s : List Nat) : Prop :=
  ∀ k, ((s.drop k).takeWhile (fun b => b != 10)).length < MAX_LINE

/-- linesFit is preserved by dropping a prefix. -/
theorem linesFit_drop (s : List Nat) (k : Nat) (h : linesFit s) :
    linesFit (s.drop k) := by
  intro j
  rw [List.drop_drop]
  exact h (k + j)

/-- A stream without newline bytes has no first newline index. -/
theorem firstNlIdx_none_of (s : List Nat) (h : ∀ b ∈ s, b ≠ 10) :
    firstNlIdx s = none := by
  induction s with
  | nil => rfl
  | cons b rest ih =>
    rw [firstNlIdx]
    rw [if_neg (h b (List.mem_cons_self b rest))]
    rw [ih fun x hx => h x (List.mem_cons_of_mem b hx)]
    rfl

/-- firstNlIdx of a replicate of a non-newline byte is none. -/
theorem firstNlIdx_replicate (n a : Nat) (h : a ≠ 10) :
    firstNlIdx (List.replicate n a) = none := by
  refine firstNlIdx_none_of _ fun b hb => ?_
  rw [List.mem_replicate] at hb
  rw [hb.2]
  exact h

/-- Without a newline, takeWhile over non-newline bytes is the whole
stream. -/
theorem takeWhile_eq_self_of_none (s : List Nat)
    (h : firstNlIdx s = none) : s.takeWhile (fun b => b != 10) = s := by
  induction s with
  | nil => rfl
  | cons b rest ih =>
    rw [firstNlIdx] at h
    by_cases hb : b = 10
    · rw [if_pos hb] at h
      cases h
    · rw [if_neg hb] at h
      have hrest : firstNlIdx rest = none := by
        rcases hfi : firstNlIdx rest with _ | i
        · rfl
        · rw [hfi] at h
          cases h
      have hb2 : (b != 10) = true := by simp [hb]
      simp [List.takeWhile_cons, hb2, ih hrest]

/-- With first newline at index i, the newline-free prefix has length i
and i is inside the stream. -/
theorem firstNlIdx_some_len (s : List Nat) (i : Nat)
    (h : firstNlIdx s = some i) :
    (s.takeWhile (fun b => b != 10)).length = i ∧ i < s.length := by
  induction s generalizing i with
  | nil => cases h
  | cons b rest ih =>
    rw [firstNlIdx] at h
    by_cases hb : b = 10
    · rw [if_pos hb] at h
      cases h
      subst hb
      constructor
      · rw [List.takeWhile_cons]
        simp
      · simp
    · rw [if_neg hb] at h
      rcases hfi : firstNlIdx rest with _ | j
      · rw [hfi] at h
        cases h
      · rw [hfi] at h
        simp only [Option.map_some'] at h
        cases h
        obtain ⟨hlen, hlt⟩ := ih j hfi
        have hb2 : (b != 10) = true := by simp [hb]
        constructor
        · simp [List.takeWhile_cons, hb2, hlen]
        · simp only [List.length_cons]
          omega

/-- receiveUntilNl never reports fuel exhaustion. -/
theorem receiveUntilNl_not_fuelOut (maxB : Nat) (s : List Nat) :
    receiveUntilNl maxB s ≠ .error .fuelOut := by
  rw [receiveUntilNl]
  split <;> split <;> simp

/-- With the first newline-free segment under the cap, receiveUntilNl
never reports DelimiterNotFound. -/
theorem receiveUntilNl_not_dnf (s : List Nat)
    (h : (s.takeWhile (fun b => b != 10)).length < MAX_LINE) :
    receiveUntilNl MAX_LINE s ≠ .error .delimiterNotFound := by
  rcases hfi : firstNlIdx s with _ | i
  · rw [takeWhile_eq_self_of_none s hfi] at h
    simp only [receiveUntilNl, hfi]
    rw [if_neg (by omega)]
    simp
  · obtain ⟨hlen, _⟩ := firstNlIdx_some_len s i hfi
    rw [hlen] at h
    simp only [receiveUntilNl, hfi]
    rw [if_pos h]
    simp

/-- A successful receiveUntilNl consumes at least one byte and leaves a
drop of the stream. -/
theorem receiveUntilNl_ok_drop (s line rest : List Nat)
    (h : receiveUntilNl MAX_LINE s = .ok (line, rest)) :
    ∃ k, rest = s.drop k ∧ rest.length < s.length := by
  rcases hfi : firstNlIdx s with _ | i
  · simp only [receiveUntilNl, hfi] at h
    split_ifs at h
  · simp only [receiveUntilNl, hfi] at h
    obtain ⟨_, hlt⟩ := firstNlIdx_some_len s i hfi
    by_cases hmax : i < MAX_LINE
    · rw [if_pos hmax] at h
      simp only [Except.ok.injEq, Prod.mk.injEq] at h
      refine ⟨i + 1, h.2.symm, ?_⟩
      rw [h.2.symm, List.length_drop]
      omega
    · rw [if_neg hmax] at h
      cases h

/-- receiveExactly either fails with IncompleteRead or consumes a prefix. -/
theorem receiveExactly_cases (n : Int) (s : List Nat) :
    receiveExactly n s = .error .incompleteRead ∨
    ∃ payload k, receiveExactly n s = .ok (payload, s.drop k) := by
  rw [receiveExactly]
  split_ifs
  · right
    exact ⟨[], 0, by rw [List.drop_zero]⟩
  · right
    exact ⟨_, _, rfl⟩
  · left
    rfl

/-- The header loop never exhausts fuel above the stream length, and on
success it has consumed at least one byte. -/
theorem readHeaderBlock_fuel (fuel : Nat) :
    ∀ (hs : List (List Nat)) (s : List Nat),
    (s.length < fuel → readHeaderBlock fuel hs s ≠ .error .fuelOut) ∧
    (∀ hs2 rest2, readHeaderBlock fuel hs s = .ok (hs2, rest2) →
      rest2.length < s.length) := by
  induction fuel with
  | zero =>
    intro hs s
    exact ⟨fun h => absurd h (Nat.not_lt_zero _),
      fun hs2 rest2 h => by cases h⟩
  | succ fuel ih =>
    intro hs s
    rw [readHeaderBlock]
    rcases hrc : receiveUntilNl MAX_LINE s with e | ⟨hl, rest⟩ <;>
      simp only [hrc]
    · have hnf := receiveUntilNl_not_fuelOut MAX_LINE s
      rw [hrc] at hnf
      refine ⟨fun _ h => ?_, fun hs2 rest2 h => ?_⟩
      · cases h
        exact hnf rfl
      · cases h
    · obtain ⟨k, hrest, hlen⟩ := receiveUntilNl_ok_drop s hl rest hrc
      split_ifs with hbreak
      · refine ⟨fun _ h => ?_, fun hs2 rest2 h => ?_⟩
        · cases h
        · simp only [Except.ok.injEq, Prod.mk.injEq] at h
          rw [← h.2]
          exact hlen
      · obtain ⟨ihf, ihok⟩ := ih (hs ++ [hl]) rest
        refine ⟨fun hlt => ihf (by omega), fun hs2 rest2 h => ?_⟩
        exact lt_trans (ihok hs2 rest2 h) hlen

/-- Under linesFit, the header loop never reports DelimiterNotFound and on
success leaves a drop of the stream. -/
theorem readHeaderBlock_no_dnf (fuel : Nat) :
    ∀ (hs0 : List (List Nat)) (s : List Nat), linesFit s →
    (readHeaderBlock fuel hs0 s ≠ .error .delimiterNotFound) ∧
    (∀ hs2 rest2, readHeaderBlock fuel hs0 s = .ok (hs2, rest2) →
      ∃ k, rest2 = s.drop k) := by
  induction fuel with
  | zero =>
    intro hs0 s _
    refine ⟨?_, fun hs2 rest2 h => by cases h⟩
    rw [readHeaderBlock]
    simp
  | succ fuel ih =>
    intro hs0 s hfit
    rw [readHeaderBlock]
    rcases hrc : receiveUntilNl MAX_LINE s with e | ⟨hl, rest⟩ <;>
      simp only [hrc]
    · have hnd := receiveUntilNl_not_dnf s
        (by have := hfit 0; rwa [List.drop_zero] at this)
      rw [hrc] at hnd
      refine ⟨?_, fun hs2 rest2 h => ?_⟩
      · intro h
        cases h
        exact hnd rfl
      · cases h
    · obtain ⟨k, hrest, _⟩ := receiveUntilNl_ok_drop s hl rest hrc
      have hfit2 : linesFit rest := by
        rw [hrest]
        exact linesFit_drop s k hfit
      split_ifs with hbreak
      · refine ⟨by simp, fun hs2 rest2 h => ?_⟩
        simp only [Except.ok.injEq, Prod.mk.injEq] at h
        exact ⟨k, by rw [← h.2, hrest]⟩
      · obtain ⟨ihd, ihok⟩ := ih (hs0 ++ [hl]) rest hfit2
        refine ⟨ihd, fun hs2 rest2 h => ?_⟩
        obtain ⟨k2, hk2⟩ := ihok hs2 rest2 h
        refine ⟨k + k2, ?_⟩
        rw [hk2, hrest, List.drop_drop]

/-- The outer reader loop never exhausts fuel above the stream length:
fuel length+1 in iterJsonLines is always sufficient, so the fuelOut
marker is an unreachable artifact of the encoding. -/
theorem iterGo_no_fuelOut (fuel : Nat) :
    ∀ (acc : List (List Nat)) (s : List Nat), s.length < fuel →
    iterGo fuel acc s ≠ .error .fuelOut := by
  induction fuel with
  | zero =>
    intro acc s h
    exact absurd h (Nat.not_lt_zero _)
  | succ fuel ih =>
    intro acc s hlen
    rw [iterGo]
    rcases hrc : receiveUntilNl MAX_LINE s with e | ⟨line, rest⟩
    · have hnf := receiveUntilNl_not_fuelOut MAX_LINE s
      rw [hrc] at hnf
      rcases e with _ | _ | _
      · intro h
        cases h
      · intro h
        cases h
      · exact absurd rfl hnf
    · obtain ⟨k, hrest, hdec⟩ := receiveUntilNl_ok_drop s line rest hrc
      dsimp only
      split_ifs with hcl
      · rcases hrh : readHeaderBlock (rest.length + 1) [line] rest with
          e | ⟨hs2, rest2⟩ <;> simp only [hrh]
        · have hok := (readHeaderBlock_fuel (rest.length + 1) [line] rest).1
            (by omega)
          rw [hrh] at hok
          rcases e with _ | _ | _
          · intro h
            cases h
          · intro h
            cases h
          · exact absurd rfl hok
        · have hdec2 := (readHeaderBlock_fuel (rest.length + 1) [line]
            rest).2 hs2 rest2 hrh
          rcases hcl2 : contentLengthOf hs2 with _ | n <;> simp only [hcl2]
          · exact ih acc rest2 (by omega)
          · rcases receiveExactly_cases n rest2 with hre | ⟨payload, k3, hre⟩ <;>
              rw [hre]
            · intro h
              cases h
            · have hlen3 : (rest2.drop k3).length ≤ rest2.length := by
                rw [List.length_drop]
                omega
              exact ih (acc ++ [payload]) (rest2.drop k3) (by omega)
      · exact ih (acc ++ [rstripNl line]) rest (by omega)

/-- Under linesFit, the outer reader loop never reports
DelimiterNotFound. -/
theorem iterGo_no_dnf (fuel : Nat) :
    ∀ (acc : List (List Nat)) (s : List Nat), linesFit s →
    iterGo fuel acc s ≠ .error .delimiterNotFound := by
  induction fuel with
  | zero =>
    intro acc s _
    rw [iterGo]
    simp
  | succ fuel ih =>
    intro acc s hfit
    rw [iterGo]
    rcases hrc : receiveUntilNl MAX_LINE s with e | ⟨line, rest⟩
    · have hnd := receiveUntilNl_not_dnf s
        (by have := hfit 0; rwa [List.drop_zero] at this)
      rw [hrc] at hnd
      rcases e with _ | _ | _
      · intro h
        cases h
      · exact absurd rfl hnd
      · intro h
        cases h
    · obtain ⟨k, hrest, _⟩ := receiveUntilNl_ok_drop s line rest hrc
      have hfit2 : linesFit rest := by
        rw [hrest]
        exact linesFit_drop s k hfit
      dsimp only
      split_ifs with hcl
      · rcases hrh : readHeaderBlock (rest.length + 1) [line] rest with
          e | ⟨hs2, rest2⟩ <;> simp only [hrh]
        · have hnd2 := (readHeaderBlock_no_dnf (rest.length + 1) [line]
            rest hfit2).1
          rw [hrh] at hnd2
          rcases e with _ | _ | _
          · intro h
            cases h
          · exact absurd rfl hnd2
          · intro h
            cases h
        · obtain ⟨k2, hk2⟩ := (readHeaderBlock_no_dnf (rest.length + 1)
            [line] rest hfit2).2 hs2 rest2 hrh
          have hfit3 : linesFit rest2 := by
            rw [hk2]
            exact linesFit_drop rest k2 hfit2
          rcases hcl2 : contentLengthOf hs2 with _ | n <;> simp only [hcl2]
          · exact ih acc rest2 hfit3
          · rcases receiveExactly_cases n rest2 with hre | ⟨payload, k3, hre⟩ <;>
              rw [hre]
            · intro h
              cases h
            · exact ih (acc ++ [payload]) (rest2.drop k3)
                (linesFit_drop rest2 k3 hfit3)
      · exact ih (acc ++ [rstripNl line]) rest hfit2

/-! Claim C2: the header-framing round trip.  The blank-line test of the
header loop compares against byte strings that still contain the newline
delimiter, but receive_until consumes the delimiter, so the loop never
terminates normally: the reader consumes the whole rest of the stream as
header lines and raises IncompleteRead at end of stream, and the encoded
payload is never yielded. -/

/-- C2: decoding the header-framed encoding of the payload bytes of
"hello" raises IncompleteRead instead of returning the payload: the round
trip fails on every payload. -/
theorem c2_roundtrip_bug :
    iterJsonLines (encodeFramed (strBytes "hello")) =
      .error .incompleteRead ∧
    (Except.error StreamErr.incompleteRead :
      Except StreamErr (List (List Nat))) ≠ .ok [strBytes "hello"] :=
  ⟨rfl, fun h => Except.noConfusion h⟩

/-! Claim C3: end-of-stream mid-read. -/

/-- C3 counterexample: a stream that ends inside the header block (right
after the Content-Length line) makes the reader raise IncompleteRead
instead of ending the sequence silently. -/
theorem c3_counterexample_header_raises :
    iterJsonLines (strBytes "Content-Length: 5" ++ [13, 10]) =
      .error .incompleteRead := rfl

/-- C3 amended: a stream that ends mid-line (no newline arrives) and that
stays below the 1,048,576-byte line cap ends the sequence silently with
no partial frame (at or above the cap the reader raises
DelimiterNotFound instead, see the line-cap theorem); and a stream that
ends inside the header block after a Content-Length line raises
IncompleteRead. -/
theorem c3_amended_truncation (s : List Nat) (h1 : ∀ b ∈ s, b ≠ 10)
    (h2 : s.length < MAX_LINE) :
    iterJsonLines s = .ok [] ∧
    iterJsonLines (strBytes "Content-Length: 5" ++ [13, 10]) =
      .error .incompleteRead := by
  refine ⟨?_, rfl⟩
  rw [iterJsonLines, iterGo]
  have hru : receiveUntilNl MAX_LINE s = .error .incompleteRead := by
    simp only [receiveUntilNl, firstNlIdx_none_of s h1]
    rw [if_neg (by omega)]
  rw [hru]

/-- C3 amended witness at a concrete truncated stream. -/
theorem c3_amended_truncation_witness :
    iterJsonLines (strBytes "abc") = .ok [] ∧
    iterJsonLines (strBytes "Content-Length: 5" ++ [13, 10]) =
      .error .incompleteRead :=
  c3_amended_truncation (strBytes "abc") (by decide) (by decide)

/-! Claim C10: the 1,048,576-byte line cap. -/

/-- C10: when every newline-free segment of the stream is shorter than
1,048,576 bytes the DelimiterNotFound branch is unreachable, and a stream
of 1,048,576 bytes without any newline makes the reader raise
DelimiterNotFound instead of yielding a frame or closing silently. -/
theorem c10_line_cap (s : List Nat) (h : linesFit s) :
    iterJsonLines s ≠ .error .delimiterNotFound ∧
    iterJsonLines (List.replicate MAX_LINE 97) =
      .error .delimiterNotFound := by
  constructor
  · exact iterGo_no_dnf (s.length + 1) [] s h
  · rw [iterJsonLines, List.length_replicate, iterGo]
    have hfn : firstNlIdx (List.replicate MAX_LINE 97) = none :=
      firstNlIdx_replicate MAX_LINE 97 (by decide)
    have hle : MAX_LINE ≤ (List.replicate MAX_LINE 97).length := by
      rw [List.length_replicate]
    have hru : receiveUntilNl MAX_LINE (List.replicate MAX_LINE 97) =
        .error .delimiterNotFound := by
      rw [receiveUntilNl, hfn, if_pos hle]
    rw [hru]

/-- C10 witness at a concrete two-byte line-framed stream. -/
theorem c10_line_cap_witness :
    iterJsonLines [104, 10] ≠ .error .delimiterNotFound ∧
    iterJsonLines (List.replicate MAX_LINE 97) =
      .error .delimiterNotFound := by
  apply c10_line_cap
  intro k
  have h1 : ((([104, 10] : List Nat).drop k).takeWhile
      (fun b => b != 10)).length ≤ 2 := by
    calc ((([104, 10] : List Nat).drop k).takeWhile
        (fun b => b != 10)).length
        ≤ (([104, 10] : List Nat).drop k).length :=
          takeWhile_len_le _ _
      _ ≤ 2 := by
          rw [List.length_drop]
          simp
  have h2 : (2 : Nat) < MAX_LINE := by norm_num [MAX_LINE]
  omega

end Acp
